import Mathlib

/-!
Shallow embedding of the dependency-resolver core of this repository:
the term algebra of `src/poetry/mixology/term.py`, the operation
derivation of `src/poetry/puzzle/transaction.py`, and the name
canonicalization of `src/poetry/utils/helpers.py`, together with proofs
of the specified properties.  Python strings are embedded as `String`
(or `List Char` where character-level reasoning is needed), versions as
natural numbers, and the external version-constraint algebra as finite
sets of versions following the contract stated in the specification.
-/

namespace Poetry

/-- Version values: opaque, totally ordered, comparable (spec §3);
embedded as natural numbers. -/
abbrev Version := Nat

/-- Modelled from the spec: the external version-constraint algebra
(spec §3) — "a set of Versions, closed under intersection, union,
difference, complement; supports `allows_all`, `allows_any`,
`is_empty`".  Embedded as a finite set of versions; the set operations
of `Finset` play the roles of `intersect`, `union` and `difference`. -/
abbrev Constraint := Finset Version

/-- Modelled from the spec: `constraint.allows_all(other)` of the
version algebra — this constraint admits every version the other
admits. -/
def Constraint.allowsAll (self other : Constraint) : Bool :=
  decide (other ⊆ self)

/-- Modelled from the spec: `constraint.allows_any(other)` of the
version algebra — the two constraints share at least one version. -/
def Constraint.allowsAny (self other : Constraint) : Bool :=
  decide ((self ∩ other).Nonempty)

/-- Modelled from the spec: `constraint.is_empty()` of the version
algebra. -/
def Constraint.isEmpty (self : Constraint) : Bool :=
  decide (self = ∅)

/-- Modelled from the spec: a Dependency is a package identity (the
canonicalized complete name), a Constraint, and metadata (spec §3); the
`isRoot` flag marks the root sentinel identity.  Only the fields
consumed by `Term` are embedded.  Implemented in the external
poetry-core library. -/
structure Dependency where
  completeName : String
  constraint : Constraint
  isRoot : Bool := false
  deriving DecidableEq

/-- Modelled from the spec: `is_same_package_as` between dependencies —
"Two terms refer to the same package iff their dependencies share
complete name" (spec §3). -/
def Dependency.isSamePackageAs (self other : Dependency) : Bool :=
  self.completeName == other.completeName

/-- Modelled from the spec: `dependency.with_constraint(c)` returns the
same package identity carrying a new constraint. -/
def Dependency.withConstraint (self : Dependency) (c : Constraint) : Dependency :=
  { self with constraint := c }

/-- Set-relation constants SUBSET / DISJOINT / OVERLAPPING of
`poetry/mixology/set_relation.py` (spec §4.1). -/
inductive SetRelation
  | subset
  | disjoint
  | overlapping
  deriving DecidableEq

/-- Term of `poetry/mixology/term.py`: a signed assertion about a
package — a `Dependency` together with the sign `_positive`. -/
structure Term where
  dependency : Dependency
  positive : Bool
  deriving DecidableEq

/-- Term.is_positive of `poetry/mixology/term.py`. -/
def Term.isPositive (self : Term) : Bool :=
  self.positive

/-- Term.inverse of `poetry/mixology/term.py`: flips the sign. -/
def Term.inverse (self : Term) : Term :=
  ⟨self.dependency, !self.isPositive⟩

/-- Term.constraint of `poetry/mixology/term.py`. -/
def Term.constraint (self : Term) : Constraint :=
  self.dependency.constraint

/-- Term._compatible_dependency of `poetry/mixology/term.py`: the root
sentinel on either side is compatible with anything, otherwise the two
dependencies must be the same package. -/
def Term.compatibleDependency (self : Term) (other : Dependency) : Bool :=
  self.dependency.isRoot || other.isRoot || other.isSamePackageAs self.dependency

/-- Term.relation of `poetry/mixology/term.py`: the relationship between
the package versions allowed by this term and another.  The Python code
raises ValueError on a complete-name mismatch; this is embedded as the
`Except.error` branch. -/
def Term.relation (self other : Term) : Except String SetRelation :=
  if self.dependency.completeName != other.dependency.completeName then
    .error (other.dependency.completeName ++ " should refer to "
      ++ self.dependency.completeName)
  else
    let otherConstraint := other.constraint
    .ok <|
      if other.isPositive then
        if self.isPositive then
          if !(self.compatibleDependency other.dependency) then .disjoint
          else if Constraint.allowsAll otherConstraint self.constraint then .subset
          else if !(Constraint.allowsAny self.constraint otherConstraint) then .disjoint
          else .overlapping
        else
          if !(self.compatibleDependency other.dependency) then .overlapping
          else if Constraint.allowsAll self.constraint otherConstraint then .disjoint
          else .overlapping
      else if self.isPositive then
        if !(self.compatibleDependency other.dependency) then .subset
        else if !(Constraint.allowsAny otherConstraint self.constraint) then .subset
        else if Constraint.allowsAll otherConstraint self.constraint then .disjoint
        else .overlapping
      else
        if !(self.compatibleDependency other.dependency) then .overlapping
        else if Constraint.allowsAll self.constraint otherConstraint then .subset
        else .overlapping

/-- Term._non_empty_term of `poetry/mixology/term.py`: a term on this
term's package with the given constraint and sign, or `none` when the
constraint is empty. -/
def Term.nonEmptyTerm (self : Term) (c : Constraint) (isPositive : Bool) : Option Term :=
  if Constraint.isEmpty c then none
  else some ⟨self.dependency.withConstraint c, isPositive⟩

/-- Term.intersect of `poetry/mixology/term.py`: the term representing
the packages allowed by both terms (`none` when empty); raises — embedded
as `Except.error` — on a complete-name mismatch. -/
def Term.intersect (self other : Term) : Except String (Option Term) :=
  if self.dependency.completeName != other.dependency.completeName then
    .error (other.dependency.completeName ++ " should refer to "
      ++ self.dependency.completeName)
  else
    .ok <|
      if self.compatibleDependency other.dependency then
        if self.isPositive != other.isPositive then
          let pos := if self.isPositive then self else other
          let neg := if self.isPositive then other else self
          self.nonEmptyTerm (pos.constraint \ neg.constraint) true
        else if self.isPositive then
          self.nonEmptyTerm (self.constraint ∩ other.constraint) true
        else
          self.nonEmptyTerm (self.constraint ∪ other.constraint) false
      else if self.isPositive != other.isPositive then
        some (if self.isPositive then self else other)
      else
        none

/-- Sign-pair case table for `relation` exactly as the specification
words it (spec §4.1), stated directly in the language of version sets:
both positive — SUBSET if other ⊇ self, DISJOINT if they do not overlap,
else OVERLAPPING; negative/positive — DISJOINT if self ⊇ other, else
OVERLAPPING; positive/negative — SUBSET if other does not overlap self,
DISJOINT if other ⊇ self, else OVERLAPPING; both negative — SUBSET if
self ⊇ other, else OVERLAPPING. -/
def relationTable (self other : Term) : SetRelation :=
  if self.isPositive then
    if other.isPositive then
      if self.constraint ⊆ other.constraint then .subset
      else if self.constraint ∩ other.constraint = ∅ then .disjoint
      else .overlapping
    else
      if other.constraint ∩ self.constraint = ∅ then .subset
      else if self.constraint ⊆ other.constraint then .disjoint
      else .overlapping
  else
    if other.isPositive then
      if other.constraint ⊆ self.constraint then .disjoint
      else .overlapping
    else
      if other.constraint ⊆ self.constraint then .subset
      else .overlapping

/-- Store of the `functools.lru_cache(maxsize=None)` decorator sitting
on `Term.relation`: a map from argument pairs to previously computed
results.  CPython creates one such store per decorated function at class
definition time — it is shared by every `Term` and every solve of the
process, and nothing in the repository ever clears it. -/
abbrev RelationCache := List ((Term × Term) × SetRelation)

/-- Lookup in the lru_cache store. -/
def cacheLookup (cache : RelationCache) (k : Term × Term) : Option SetRelation :=
  (cache.find? (fun e => e.1 == k)).map (·.2)

/-- Cached `Term.relation` as produced by the lru_cache decorator: a hit
returns the stored result and leaves the store unchanged; a miss
computes the result and stores it (raised exceptions are not cached). -/
def relationCached (cache : RelationCache) (self other : Term) :
    Except String SetRelation × RelationCache :=
  match cacheLookup cache (self, other) with
  | some r => (.ok r, cache)
  | none =>
    match self.relation other with
    | .ok r => (.ok r, ((self, other), r) :: cache)
    | .error e => (.error e, cache)

/-- Modelled from the spec: result-side Package entity (spec §3) — name,
version, optional source type and source reference; only the fields
`Transaction.calculate_operations` consumes are embedded.  Implemented
in the external poetry-core library. -/
structure Package where
  name : String
  version : Version
  sourceType : Option String := none
  sourceReference : Option String := none
  deriving DecidableEq

/-- Modelled from the spec: `package.is_same_package_as(other)` — same
package identity including source identity, per spec §4.4 ("source
identity changed (source_type/reference differ even at same version
string)").  Implemented in the external poetry-core library. -/
def Package.isSamePackageAs (self other : Package) : Bool :=
  self.name == other.name && self.sourceType == other.sourceType
    && self.sourceReference == other.sourceReference

/-- Operation kinds of `poetry/installation/operations/` (spec §6):
Install, Update, Uninstall. -/
inductive OpKind
  | install
  | update
  | uninstall
  deriving DecidableEq

/-- Modelled from the spec: an operation (spec §6 and §9) — a kind, the
package acted on (for an update, the target; `initialPackage` holds the
installed one), a priority defaulting to 0 when the caller passes none,
and the skip flag with its reason as set by `.skip(...)`.  Implemented
in `poetry/installation/operations/`, outside the provided sources. -/
structure Operation where
  kind : OpKind
  package : Package
  initialPackage : Option Package := none
  priority : Int := 0
  skipped : Bool := false
  skipReason : Option String := none
  deriving DecidableEq

/-- Transaction of `poetry/puzzle/transaction.py`: current (declared)
packages, result packages with their priorities, the previously
installed packages, and the optional root package. -/
structure Transaction where
  currentPackages : List Package
  resultPackages : List (Package × Int)
  installedPackages : List Package
  rootPackage : Option Package
  deriving DecidableEq

/-- Update test of `Transaction.calculate_operations`
(`transaction.py`, lines 45–51): the versions differ, or —
`installed_package.source_type or result_package.source_type != "legacy"`
(Python truthiness of the optional source type is presence) — and the
two are not the same package. -/
def updateCondition (resultPackage installedPackage : Package) : Bool :=
  resultPackage.version != installedPackage.version
    || ((installedPackage.sourceType.isSome
          || resultPackage.sourceType != some "legacy")
        && !(resultPackage.isSamePackageAs installedPackage))

/-- Per-result-package step of `Transaction.calculate_operations`
(lines 38–63): the first installed package of the same name decides
between an Update (at the result's priority) and an Install skipped as
"Already installed" (default priority); with no installed match, a fresh
Install at the result's priority. -/
def installOrUpdateOp (installedPackages : List Package) (entry : Package × Int) :
    Operation :=
  match installedPackages.find? (fun p => entry.1.name == p.name) with
  | some installedPackage =>
    if updateCondition entry.1 installedPackage then
      { kind := .update, package := entry.1,
        initialPackage := some installedPackage, priority := entry.2 }
    else
      { kind := .install, package := entry.1, skipped := true,
        skipReason := some "Already installed" }
  | none => { kind := .install, package := entry.1, priority := entry.2 }

/-- Removal pass of `Transaction.calculate_operations` (lines 65–77):
every current package absent from the results contributes one Uninstall
of that current package per equally named installed package. -/
def removalOps (t : Transaction) : List Operation :=
  (t.currentPackages.filter (fun c =>
      !(t.resultPackages.any (fun rp => c.name == rp.1.name)))).flatMap
    (fun c =>
      (t.installedPackages.filter (fun i => i.name == c.name)).map
        (fun _ => { kind := .uninstall, package := c : Operation }))

/-- Names of the bootstrap tooling packages preserved by the synchronize
pass (lines 86–90). -/
def preservedNames : List String :=
  ["pip", "setuptools", "wheel"]

/-- Synchronize pass of `Transaction.calculate_operations`
(lines 79–103): uninstall every installed package not among the current
names, skipping the root package and the bootstrap tooling names unless
those are themselves current.  The Python set difference
`{"pip", "setuptools", "wheel"} - current_package_names` is embedded as
the conjunction of the two membership tests. -/
def syncOps (t : Transaction) : List Operation :=
  let currentNames := t.currentPackages.map Package.name
  t.installedPackages.filterMap (fun i =>
    if (match t.rootPackage with
        | some r => i.name == r.name
        | none => false) then none
    else if preservedNames.contains i.name && !(currentNames.contains i.name) then
      none
    else if !(currentNames.contains i.name) then
      some { kind := .uninstall, package := i }
    else none)

/-- Sort comparison of `Transaction.calculate_operations`
(lines 105–112): ascending in the key tuple
`(-priority, package name, package version)`, compared
lexicographically as Python compares tuples. -/
def opLE (a b : Operation) : Bool :=
  decide (-a.priority < -b.priority)
    || (-a.priority == -b.priority
        && (decide (a.package.name < b.package.name)
            || (a.package.name == b.package.name
                && decide (a.package.version ≤ b.package.version))))

/-- Transaction.calculate_operations of `poetry/puzzle/transaction.py`:
install/update/skip per result package; when uninstalls are enabled, the
removal pass and — when synchronize is enabled — the synchronize pass;
finally the stable sort by `(-priority, name, version)`. -/
def Transaction.calculateOperations (t : Transaction)
    (withUninstalls : Bool) (synchronize : Bool) : List Operation :=
  let ops := t.resultPackages.map (installOrUpdateOp t.installedPackages)
  let ops := ops ++
    (if withUninstalls then
      removalOps t ++ (if synchronize then syncOps t else [])
    else [])
  ops.mergeSort opLE

/-- Ordering the specification asserts for the returned operation list
(spec §4.4): descending priority, then package name, then package
version. -/
def specOrder (a b : Operation) : Prop :=
  b.priority < a.priority
    ∨ (a.priority = b.priority
        ∧ (a.package.name < b.package.name
            ∨ (a.package.name = b.package.name
                ∧ a.package.version ≤ b.package.version)))

/-- Sort key of an operation as a lexicographic triple, used to relate
`opLE` to a linear order. -/
def opKey (o : Operation) : Lex (Int × Lex (String × Nat)) :=
  toLex (-o.priority, toLex (o.package.name, o.package.version))

/-- Separator class of the `[-_]+` regex of
`poetry/utils/helpers.py`. -/
def isSep (c : Char) : Bool :=
  c == '-' || c == '_'

/-- Single-character effect of the regex substitution: every separator
becomes a dash. -/
def sepToDash (c : Char) : Char :=
  if isSep c then '-' else c

/-- Collapse of adjacent dashes; after `sepToDash`, together they
implement `re.compile("[-_]+").sub("-", name)`: each maximal run of
separators becomes a single dash. -/
def squeezeDashes : List Char → List Char
  | [] => []
  | [c] => [c]
  | a :: b :: rest =>
    if a == '-' && b == '-' then squeezeDashes (b :: rest)
    else a :: squeezeDashes (b :: rest)

/-- Absence of two adjacent dashes, the invariant the regex
substitution establishes. -/
def noDoubleDash (l : List Char) : Prop :=
  l.Chain' (fun a b => ¬(a = '-' ∧ b = '-'))

/-- canonicalize_name of `poetry/utils/helpers.py`:
`_canonicalize_regex.sub("-", name).lower()` — the `[-_]+` runs are
replaced by single dashes, then the result is lowercased.  Python
strings are embedded as character lists; `str.lower()` is embedded as
`Char.toLower` on each character (ASCII case mapping). -/
def canonicalizeName (name : List Char) : List Char :=
  (squeezeDashes (name.map sepToDash)).map Char.toLower

/-- Example root-package term: the root sentinel identity. -/
def rootTermEx : Term :=
  ⟨⟨"my-root", {0}, true⟩, true⟩

/-- Example ordinary term about the package foo. -/
def fooTermEx : Term :=
  ⟨⟨"foo", {1}, false⟩, true⟩

/-- Example term about foo at versions 1 and 2, for the cache model. -/
def cacheTermA : Term :=
  ⟨⟨"foo", {1}, false⟩, true⟩

/-- Example wider term about foo, for the cache model. -/
def cacheTermB : Term :=
  ⟨⟨"foo", {1, 2}, false⟩, true⟩

/-- Example installed package bar without source metadata. -/
def barInstalledEx : Package :=
  ⟨"bar", 1, none, none⟩

/-- Example result package bar at the same version from a legacy source
with a changed reference. -/
def barLegacyEx : Package :=
  ⟨"bar", 1, some "legacy", some "repo2"⟩

/-- Example transaction exercising the legacy-source update test. -/
def legacyTransactionEx : Transaction :=
  ⟨[], [(barLegacyEx, 5)], [barInstalledEx], none⟩

/-- Example package foo at version 1. -/
def fooPkgEx : Package :=
  ⟨"foo", 1, none, none⟩

/-- Example transaction where foo is already installed unchanged. -/
def installedTransactionEx : Transaction :=
  ⟨[], [(fooPkgEx, 1)], [fooPkgEx], none⟩

/-- Example root package. -/
def rootPkgEx : Package :=
  ⟨"my-root", 1, none, none⟩

/-- Example installed pip package. -/
def pipPkgEx : Package :=
  ⟨"pip", 1, none, none⟩

/-- Example synchronize transaction of the spec (§8): installed root,
pip and foo, nothing declared, empty result. -/
def syncTransactionEx : Transaction :=
  ⟨[], [], [rootPkgEx, pipPkgEx, fooPkgEx], some rootPkgEx⟩

/-- Example installed package baz at version 1. -/
def bazOldEx : Package :=
  ⟨"baz", 1, none, none⟩

/-- Example result package baz at version 2. -/
def bazNewEx : Package :=
  ⟨"baz", 2, none, none⟩

/-- Example transaction updating baz from version 1 to 2. -/
def bazTransactionEx : Transaction :=
  ⟨[], [(bazNewEx, 3)], [bazOldEx], none⟩

/-- Same-package compatibility holds between equally named terms. -/
theorem compatibleDependency_of_name_eq (t1 t2 : Term)
    (h : t1.dependency.completeName = t2.dependency.completeName) :
    t1.compatibleDependency t2.dependency = true := by
  simp [Term.compatibleDependency, Dependency.isSamePackageAs, h]

/-- C1: for every two terms about the same package, `relation` follows
the sign-pair case table of the specification: both positive — SUBSET
when the other constraint allows all of this one, DISJOINT when the two
do not overlap, else OVERLAPPING; negative/positive — DISJOINT when this
constraint allows all of the other, else OVERLAPPING;
positive/negative — SUBSET when the other constraint does not overlap
this one, DISJOINT when the other allows all of this one, else
OVERLAPPING; both negative — SUBSET when this constraint allows all of
the other, else OVERLAPPING. -/
theorem relation_follows_sign_pair_table (t1 t2 : Term)
    (h : t1.dependency.completeName = t2.dependency.completeName) :
    t1.relation t2 = .ok (relationTable t1 t2) := by
  have hc := compatibleDependency_of_name_eq t1 t2 h
  cases h1 : t1.positive <;> cases h2 : t2.positive <;>
    simp only [Term.relation, relationTable, Term.isPositive, Term.constraint,
      Constraint.allowsAll, Constraint.allowsAny, h, h1, h2, hc,
      bne_self_eq_false, Bool.not_true, Bool.false_eq_true, if_false,
      Bool.true_eq_false, Bool.not_false, if_true, Except.ok.injEq] <;>
    split_ifs with ha hb hd <;>
    first
      | rfl
      | (exfalso; simp_all [Finset.not_nonempty_iff_eq_empty, Finset.inter_comm])

/-- Witness for C1 at two concrete terms about the package foo. -/
theorem relation_follows_sign_pair_table_witness :
    cacheTermA.dependency.completeName = cacheTermB.dependency.completeName
    ∧ cacheTermA.relation cacheTermB = .ok (relationTable cacheTermA cacheTermB) :=
  ⟨by decide, relation_follows_sign_pair_table cacheTermA cacheTermB (by decide)⟩

/-- C2 counterexample: a root-sentinel term does not bypass the
identity guard — `relation` and `intersect` against a term about a
different package still raise even though one side is the root
sentinel, contradicting the claimed root exemption. -/
theorem relation_root_term_still_raises :
    rootTermEx.dependency.isRoot = true
    ∧ (rootTermEx.relation fooTermEx).isOk = false
    ∧ (rootTermEx.intersect fooTermEx).isOk = false := by
  decide

/-- C2 amended: `relation` and `intersect` fail with the
identity-mismatch error exactly when the two terms' complete names
differ, with no exemption for the root sentinel; the root wildcard
applies only to the internal `_compatible_dependency` test, where a
root-sentinel side is compatible with any dependency. -/
theorem relation_intersect_identity_guard (t1 t2 : Term) (n : String)
    (c : Constraint) (p : Bool) (d : Dependency) :
    ((t1.relation t2).isOk
        = (t1.dependency.completeName == t2.dependency.completeName))
    ∧ ((t1.intersect t2).isOk
        = (t1.dependency.completeName == t2.dependency.completeName))
    ∧ Term.compatibleDependency ⟨⟨n, c, true⟩, p⟩ d = true := by
  refine ⟨?_, ?_, ?_⟩
  · by_cases h : t1.dependency.completeName = t2.dependency.completeName <;>
      simp [Term.relation, bne, h, Except.isOk, Except.toBool]
  · by_cases h : t1.dependency.completeName = t2.dependency.completeName <;>
      simp [Term.intersect, bne, h, Except.isOk, Except.toBool]
  · simp [Term.compatibleDependency]

/-- C3: a term intersected with its own inverse is the empty "no term"
result — a term and its negation are always disjoint. -/
theorem intersect_inverse_eq_none (t : Term) :
    t.intersect t.inverse = .ok none := by
  obtain ⟨⟨n, c, r⟩, p⟩ := t
  cases p <;>
    simp [Term.intersect, Term.inverse, Term.isPositive, Term.constraint,
      Term.compatibleDependency, Dependency.isSamePackageAs, Term.nonEmptyTerm,
      Constraint.isEmpty, Finset.sdiff_self]

/-- C8 counterexample: the lru_cache store on `Term.relation` is created
once with the class and never invalidated, so the store a later solve
begins with is the one an earlier solve populated — after one lookup
starting from the pristine store, the store is no longer empty and the
earlier result is still present, contradicting per-solve recreation. -/
theorem relation_cache_shared_across_solves :
    (relationCached [] cacheTermA cacheTermB).2 ≠ []
    ∧ cacheLookup (relationCached [] cacheTermA cacheTermB).2
        (cacheTermA, cacheTermB) = some SetRelation.subset := by
  decide

/-- C8 amended: within the process-wide lru_cache store, entries are
read-only after population — repeating a query returns the cached result
and leaves the store unchanged — and the store only grows: a query never
discards existing entries, so state persists from one solve into the
next instead of being recreated per solve. -/
theorem relation_cache_write_once_and_persistent (cache : RelationCache)
    (t1 t2 : Term) :
    relationCached ((relationCached cache t1 t2).2) t1 t2
        = relationCached cache t1 t2
    ∧ ∃ pre, ((relationCached cache t1 t2).2 = pre ++ cache) := by
  rcases hl : cacheLookup cache (t1, t2) with _ | r
  · rcases hr : t1.relation t2 with e | r2
    · exact ⟨by simp [relationCached, hl, hr], ⟨[], by simp [relationCached, hl, hr]⟩⟩
    · have hfind : cacheLookup (((t1, t2), r2) :: cache) (t1, t2) = some r2 := by
        simp [cacheLookup, List.find?]
      exact ⟨by simp [relationCached, hl, hr, hfind],
        ⟨[((t1, t2), r2)], by simp [relationCached, hl, hr]⟩⟩
  · exact ⟨by simp [relationCached, hl], ⟨[], by simp [relationCached, hl]⟩⟩

/-- Comparison `opLE` agrees with the lexicographic order on the sort
keys. -/
theorem opLE_iff_key (a b : Operation) : opLE a b = true ↔ opKey a ≤ opKey b := by
  rw [opKey, opKey, Prod.Lex.le_iff, Prod.Lex.le_iff]
  simp [opLE, neg_inj]

/-- Totality of the sort comparison. -/
theorem opLE_total (a b : Operation) : (opLE a b || opLE b a) = true := by
  rcases le_total (opKey a) (opKey b) with h | h
  · simp [(opLE_iff_key a b).2 h]
  · simp [(opLE_iff_key b a).2 h]

/-- Transitivity of the sort comparison. -/
theorem opLE_trans (a b c : Operation) (h1 : opLE a b = true)
    (h2 : opLE b c = true) : opLE a c = true :=
  (opLE_iff_key a c).2 (le_trans ((opLE_iff_key a b).1 h1) ((opLE_iff_key b c).1 h2))

/-- The sort comparison implies the ordering the specification words
ask for. -/
theorem opLE_imp_specOrder (a b : Operation) (hab : opLE a b = true) :
    specOrder a b := by
  unfold specOrder
  simpa only [opLE, Bool.or_eq_true, Bool.and_eq_true, decide_eq_true_eq,
    beq_iff_eq, neg_inj, neg_lt_neg_iff] using hab

/-- C7: the operation list returned by calculate_operations is ordered
by descending priority, then by package name, then by package
version. -/
theorem calculate_operations_sorted (t : Transaction) (wu sync : Bool) :
    List.Sorted specOrder (t.calculateOperations wu sync) := by
  unfold Transaction.calculateOperations
  exact List.Pairwise.imp (fun hab => opLE_imp_specOrder _ _ hab)
    (List.sorted_mergeSort (fun a b c => opLE_trans a b c) opLE_total _)

/-- Per-result operations are installs or updates, never uninstalls. -/
theorem installOrUpdateOp_kind_ne_uninstall (ip : List Package)
    (e : Package × Int) : (installOrUpdateOp ip e).kind ≠ OpKind.uninstall := by
  unfold installOrUpdateOp
  rcases hf : ip.find? (fun p => e.1.name == p.name) with _ | i <;>
    simp only [hf]
  · simp
  · split_ifs <;> simp

/-- C9: with uninstalls disabled the synchronize flag has no effect on
the result, and the returned list contains no Uninstall operation. -/
theorem no_uninstalls_when_disabled (t : Transaction) (sync : Bool) :
    t.calculateOperations false sync = t.calculateOperations false false
    ∧ (t.calculateOperations false sync).all
        (fun o => o.kind != OpKind.uninstall) = true := by
  refine ⟨rfl, ?_⟩
  rw [List.all_eq_true]
  intro o ho
  rw [Transaction.calculateOperations] at ho
  have ho2 := List.mem_mergeSort.1 ho
  simp only [Bool.false_eq_true, if_false, List.append_nil] at ho2
  obtain ⟨entry, _, rfl⟩ := List.mem_map.1 ho2
  simpa using installOrUpdateOp_kind_ne_uninstall t.installedPackages entry

/-- C5: a result package already installed identically — same version
and same package identity — yields the Install operation marked skipped
with reason "Already installed", not an Update, and that operation is
still listed in the returned operations. -/
theorem already_installed_gives_skipped_install (t : Transaction)
    (wu sync : Bool) (r : Package) (pr : Int) (i : Package)
    (hmem : (r, pr) ∈ t.resultPackages)
    (hfind : t.installedPackages.find? (fun p => r.name == p.name) = some i)
    (hver : r.version = i.version)
    (hsame : r.isSamePackageAs i = true) :
    installOrUpdateOp t.installedPackages (r, pr)
        = { kind := .install, package := r, skipped := true,
            skipReason := some "Already installed" }
    ∧ (({ kind := .install, package := r, skipped := true,
          skipReason := some "Already installed" } : Operation)
          ∈ t.calculateOperations wu sync) := by
  have hcond : updateCondition r i = false := by
    simp [updateCondition, hver, hsame, bne]
  have hop : installOrUpdateOp t.installedPackages (r, pr)
      = { kind := .install, package := r, skipped := true,
          skipReason := some "Already installed" } := by
    unfold installOrUpdateOp
    simp only [hfind, hcond, Bool.false_eq_true, if_false]
  refine ⟨hop, ?_⟩
  rw [Transaction.calculateOperations, List.mem_mergeSort]
  exact List.mem_append_left _ (hop ▸ List.mem_map_of_mem _ hmem)

/-- Witness for C5 at a concrete transaction where foo is installed
unchanged. -/
theorem already_installed_gives_skipped_install_witness :
    installOrUpdateOp installedTransactionEx.installedPackages (fooPkgEx, 1)
        = { kind := .install, package := fooPkgEx, skipped := true,
            skipReason := some "Already installed" }
    ∧ (({ kind := .install, package := fooPkgEx, skipped := true,
          skipReason := some "Already installed" } : Operation)
          ∈ installedTransactionEx.calculateOperations true false) :=
  already_installed_gives_skipped_install installedTransactionEx true false
    fooPkgEx 1 fooPkgEx (List.Mem.head _) rfl rfl rfl

/-- C4 counterexample: bar is installed without source metadata and the
result bar comes from a legacy source with a changed reference — the
source identities differ at the same version, yet calculate_operations
produces no Update for it (it is skipped as already installed),
contradicting the claimed "exactly when". -/
theorem update_exactness_counterexample :
    barLegacyEx.version = barInstalledEx.version
    ∧ barLegacyEx.isSamePackageAs barInstalledEx = false
    ∧ (legacyTransactionEx.calculateOperations true false).all
        (fun o => o.kind != OpKind.update) = true := by
  refine ⟨rfl, rfl, ?_⟩
  have h0 : legacyTransactionEx.calculateOperations true false
      = List.mergeSort
          [{ kind := .install, package := barLegacyEx, skipped := true,
             skipReason := some "Already installed" }] opLE := rfl
  rw [h0, List.mergeSort_singleton]
  rfl

/-- C4 amended: for a result package matched with a previously installed
one, an Update is produced exactly when the versions differ, or the
source identity differs and it is not the case that the installed
package has no source type while the result package's source type is
"legacy" (in that excluded case the source change is ignored); a
produced Update is listed in the returned operations. -/
theorem update_condition_amended (t : Transaction) (wu sync : Bool)
    (r : Package) (pr : Int) (i : Package)
    (hmem : (r, pr) ∈ t.resultPackages)
    (hfind : t.installedPackages.find? (fun p => r.name == p.name) = some i) :
    ((installOrUpdateOp t.installedPackages (r, pr)).kind = OpKind.update
      ↔ (r.version ≠ i.version
          ∨ (¬(i.sourceType = none ∧ r.sourceType = some "legacy")
              ∧ r.isSamePackageAs i = false)))
    ∧ ((installOrUpdateOp t.installedPackages (r, pr)).kind = OpKind.update
        → ({ kind := .update, package := r, initialPackage := some i,
              priority := pr } : Operation) ∈ t.calculateOperations wu sync) := by
  have hiff : updateCondition r i = true
      ↔ (r.version ≠ i.version
          ∨ (¬(i.sourceType = none ∧ r.sourceType = some "legacy")
              ∧ r.isSamePackageAs i = false)) := by
    rw [not_and_or]
    simp [updateCondition, Option.isSome_iff_ne_none, Bool.not_eq_true]
  cases hu : updateCondition r i with
  | true =>
    have hop : installOrUpdateOp t.installedPackages (r, pr)
        = { kind := .update, package := r, initialPackage := some i,
            priority := pr } := by
      unfold installOrUpdateOp
      simp only [hfind, hu, if_true]
    rw [hop]
    refine ⟨iff_of_true rfl (hiff.1 hu), fun _ => ?_⟩
    rw [Transaction.calculateOperations, List.mem_mergeSort]
    exact List.mem_append_left _ (hop ▸ List.mem_map_of_mem _ hmem)
  | false =>
    have hop : installOrUpdateOp t.installedPackages (r, pr)
        = { kind := .install, package := r, skipped := true,
            skipReason := some "Already installed" } := by
      unfold installOrUpdateOp
      simp only [hfind, hu, Bool.false_eq_true, if_false]
    rw [hop]
    refine ⟨iff_of_false (by simp) (fun hr => ?_), fun hk => absurd hk (by simp)⟩
    rw [← hiff] at hr
    exact absurd hr (by simp [hu])

/-- Witness for C4 (amended) at a concrete transaction updating baz from
version 1 to version 2. -/
theorem update_condition_amended_witness :
    ((installOrUpdateOp bazTransactionEx.installedPackages (bazNewEx, 3)).kind
        = OpKind.update
      ↔ (bazNewEx.version ≠ bazOldEx.version
          ∨ (¬(bazOldEx.sourceType = none ∧ bazNewEx.sourceType = some "legacy")
              ∧ bazNewEx.isSamePackageAs bazOldEx = false)))
    ∧ ((installOrUpdateOp bazTransactionEx.installedPackages (bazNewEx, 3)).kind
          = OpKind.update
        → ({ kind := .update, package := bazNewEx, initialPackage := some bazOldEx,
              priority := 3 } : Operation)
            ∈ bazTransactionEx.calculateOperations true false) :=
  update_condition_amended bazTransactionEx true false bazNewEx 3 bazOldEx
    (List.Mem.head _) rfl

/-- Provenance of an Uninstall operation in the full synchronize run:
either it uninstalls a current package (removal pass), or it comes from
the synchronize pass for an installed package that is neither the root,
nor a preserved bootstrap name, nor among the current names. -/
theorem uninstall_mem_cases (t : Transaction) (o : Operation)
    (ho : o ∈ t.calculateOperations true true)
    (hk : o.kind = OpKind.uninstall) :
    o.package ∈ t.currentPackages
    ∨ (∃ i ∈ t.installedPackages,
        o = { kind := .uninstall, package := i }
        ∧ (match t.rootPackage with
            | some r => i.name == r.name
            | none => false) = false
        ∧ (preservedNames.contains i.name
            && !((t.currentPackages.map Package.name).contains i.name)) = false
        ∧ (t.currentPackages.map Package.name).contains i.name = false) := by
  rw [Transaction.calculateOperations, List.mem_mergeSort] at ho
  rcases List.mem_append.1 ho with h1 | h2
  · obtain ⟨e, _, rfl⟩ := List.mem_map.1 h1
    exact absurd hk (installOrUpdateOp_kind_ne_uninstall _ _)
  · rcases List.mem_append.1 h2 with h3 | h4
    · left
      obtain ⟨c, hcf, hmapped⟩ := List.mem_flatMap.1 h3
      obtain ⟨i2, _, rfl⟩ := List.mem_map.1 hmapped
      exact (List.mem_filter.1 hcf).1
    · right
      obtain ⟨i, hi, hf⟩ := List.mem_filterMap.1 h4
      by_cases hr : (match t.rootPackage with
          | some r => i.name == r.name
          | none => false) = true
      · rw [if_pos hr] at hf; exact absurd hf (by simp)
      · rw [if_neg hr] at hf
        by_cases hb2 : (preservedNames.contains i.name
            && !((t.currentPackages.map Package.name).contains i.name)) = true
        · rw [if_pos hb2] at hf; exact absurd hf (by simp)
        · rw [if_neg hb2] at hf
          by_cases hcur : (!((t.currentPackages.map Package.name).contains i.name))
              = true
          · rw [if_pos hcur] at hf
            exact ⟨i, hi, (Option.some.inj hf).symm, Bool.eq_false_iff.2 hr,
              Bool.eq_false_iff.2 hb2, by simpa using hcur⟩
          · rw [if_neg hcur] at hf; exact absurd hf (by simp)

/-- C6: with synchronize and uninstalls enabled, every installed package
whose name is not among the current declared names is uninstalled,
except the root package and the bootstrap tooling names pip, setuptools
and wheel; an undeclared bootstrap package and the root package are
never the target of an Uninstall. -/
theorem synchronize_uninstall_scope (t : Transaction) (p : Package)
    (hp : p ∈ t.installedPackages)
    (hnc : p.name ∉ t.currentPackages.map Package.name) :
    ((match t.rootPackage with
      | some r => p.name == r.name
      | none => false) = false →
      preservedNames.contains p.name = false →
      ({ kind := .uninstall, package := p } : Operation)
        ∈ t.calculateOperations true true)
    ∧ (preservedNames.contains p.name = true →
        ∀ o ∈ t.calculateOperations true true,
          o.kind = OpKind.uninstall → o.package.name ≠ p.name)
    ∧ (∀ r, t.rootPackage = some r → p.name = r.name →
        ∀ o ∈ t.calculateOperations true true,
          o.kind = OpKind.uninstall → o.package.name ≠ p.name) := by
  have hncb : (t.currentPackages.map Package.name).contains p.name = false := by
    cases hb : (t.currentPackages.map Package.name).contains p.name
    · rfl
    · exact absurd (List.elem_iff.1 hb) hnc
  refine ⟨?_, ?_, ?_⟩
  · intro hroot hboot
    rw [Transaction.calculateOperations, List.mem_mergeSort]
    apply List.mem_append_right
    apply List.mem_append_right
    show _ ∈ t.installedPackages.filterMap _
    refine List.mem_filterMap.2 ⟨p, hp, ?_⟩
    rw [if_neg (by rw [hroot]; exact Bool.false_ne_true),
      if_neg (by rw [hboot]; simp),
      if_pos (by rw [hncb]; rfl)]
  · intro hbootT o ho hk hname
    rcases uninstall_mem_cases t o ho hk with hcur | ⟨i, _, rfl, _, hb2, hcurF⟩
    · exact hnc (hname ▸ List.mem_map_of_mem _ hcur)
    · rw [show ({ kind := .uninstall, package := i } : Operation).package = i
          from rfl] at hname
      rw [hname] at hb2 hcurF
      rw [hbootT, hcurF] at hb2
      simp at hb2
  · intro rt hrt hpr o ho hk hname
    rcases uninstall_mem_cases t o ho hk with hcur | ⟨i, _, rfl, hr, _, _⟩
    · exact hnc (hname ▸ List.mem_map_of_mem _ hcur)
    · rw [show ({ kind := .uninstall, package := i } : Operation).package = i
          from rfl] at hname
      rw [hrt] at hr
      rw [hname, hpr] at hr
      simp at hr

/-- Witness for C6 at the specification's example: installed root, pip
and foo with nothing declared — Uninstall(foo) is produced. -/
theorem synchronize_uninstall_scope_witness :
    ({ kind := .uninstall, package := fooPkgEx } : Operation)
      ∈ syncTransactionEx.calculateOperations true true :=
  (synchronize_uninstall_scope syncTransactionEx fooPkgEx
      (List.Mem.tail _ (List.Mem.tail _ (List.Mem.head _)))
      (by simp [syncTransactionEx])).1 rfl rfl

/-- Conversion between `Char.ofNat` and `Char.toNat` below the
surrogate range. -/
theorem toNat_ofNat_of_lt (n : Nat) (h : n < 55296) :
    (Char.ofNat n).toNat = n := by
  have hv : n.isValidChar := Or.inl h
  simp only [Char.ofNat, hv, dif_pos, Char.ofNatAux, Char.toNat]
  rfl

/-- Comparison of 32-bit words is comparison of their numeric values. -/
theorem uint32_le_iff (x y : UInt32) : x ≤ y ↔ x.toNat ≤ y.toNat :=
  Iff.rfl

/-- Numeric value of `Char.toLower`: uppercase ASCII letters move up by
32, everything else is unchanged. -/
theorem toLower_toNat (c : Char) :
    (Char.toLower c).toNat
      = if 65 ≤ c.toNat ∧ c.toNat ≤ 90 then c.toNat + 32 else c.toNat := by
  simp only [Char.toLower]
  split
  · next h => rw [toNat_ofNat_of_lt _ (by omega)]
  · next h => simp [h]

/-- Lowercasing never yields an uppercase ASCII letter. -/
theorem toLower_isUpper (c : Char) : (Char.toLower c).isUpper = false := by
  have h1 := toLower_toNat c
  have hv : (Char.toLower c).val.toNat = (Char.toLower c).toNat := rfl
  have h65 : (65 : UInt32).toNat = 65 := rfl
  have h90 : (90 : UInt32).toNat = 90 := rfl
  simp only [Char.isUpper, ge_iff_le, Bool.and_eq_false_iff,
    decide_eq_false_iff_not, uint32_le_iff, hv, h65, h90]
  by_cases hc : 65 ≤ c.toNat ∧ c.toNat ≤ 90
  · rw [if_pos hc] at h1
    right
    omega
  · rw [if_neg hc] at h1
    rcases Nat.lt_or_ge c.toNat 65 with h2 | h2
    · left
      omega
    · right
      omega

/-- Lowercasing maps the dash to itself and nothing else to the dash. -/
theorem toLower_eq_dash_iff (c : Char) : Char.toLower c = '-' ↔ c = '-' := by
  constructor
  · intro h
    have h1 := toLower_toNat c
    by_cases hc : 65 ≤ c.toNat ∧ c.toNat ≤ 90
    · exfalso
      rw [h] at h1
      rw [if_pos hc, show (('-' : Char).toNat) = 45 from rfl] at h1
      omega
    · simp only [Char.toLower] at h
      rwa [if_neg hc] at h
  · intro h
    rw [h]
    rfl

/-- Lowercasing maps the underscore to itself and nothing else to the
underscore. -/
theorem toLower_eq_underscore_iff (c : Char) :
    Char.toLower c = '_' ↔ c = '_' := by
  constructor
  · intro h
    have h1 := toLower_toNat c
    by_cases hc : 65 ≤ c.toNat ∧ c.toNat ≤ 90
    · exfalso
      rw [h] at h1
      rw [if_pos hc, show (('_' : Char).toNat) = 95 from rfl] at h1
      omega
    · simp only [Char.toLower] at h
      rwa [if_neg hc] at h
  · intro h
    rw [h]
    rfl

/-- Lowercasing is idempotent. -/
theorem toLower_toLower (c : Char) :
    Char.toLower (Char.toLower c) = Char.toLower c := by
  have h1 := toLower_toNat c
  by_cases hc : 65 ≤ c.toNat ∧ c.toNat ≤ 90
  · rw [if_pos hc] at h1
    conv in Char.toLower (Char.toLower c) => rw [Char.toLower]
    rw [if_neg (by omega)]
  · rw [if_neg hc] at h1
    conv in Char.toLower (Char.toLower c) => rw [Char.toLower]
    rw [if_neg (by omega)]

/-- A separator character turned into a non-separator stays itself. -/
theorem sepToDash_eq_self (c : Char) (h : c ≠ '_') : sepToDash c = c := by
  by_cases hc : c = '-'
  · rw [hc]
    rfl
  · simp [sepToDash, isSep, hc, h]

/-- The substitution never emits an underscore. -/
theorem sepToDash_ne_underscore (c : Char) : sepToDash c ≠ '_' := by
  by_cases hc : isSep c
  · simp only [sepToDash, hc, if_true]
    decide
  · simp only [sepToDash, hc, Bool.false_eq_true, if_false]
    intro h
    rw [h] at hc
    exact hc (by decide)

/-- The head of the dash-collapsed list is the head of the input. -/
theorem squeezeDashes_head? (l : List Char) :
    (squeezeDashes l).head? = l.head? := by
  induction l with
  | nil => rfl
  | cons a tl ih =>
    cases tl with
    | nil => rfl
    | cons b rest =>
      rw [squeezeDashes]
      by_cases hab : (a == '-' && b == '-') = true
      · rw [if_pos hab, ih]
        have : a = b := by
          simp only [Bool.and_eq_true, beq_iff_eq] at hab
          rw [hab.1, hab.2]
        rw [this]
        rfl
      · rw [if_neg hab]
        rfl

/-- Elements of the dash-collapsed list come from the input. -/
theorem mem_squeezeDashes (l : List Char) (c : Char)
    (h : c ∈ squeezeDashes l) : c ∈ l := by
  induction l with
  | nil => exact absurd h (by simp [squeezeDashes])
  | cons a tl ih =>
    cases tl with
    | nil => exact h
    | cons b rest =>
      rw [squeezeDashes] at h
      by_cases hab : (a == '-' && b == '-') = true
      · rw [if_pos hab] at h
        exact List.Mem.tail _ (ih h)
      · rw [if_neg hab] at h
        cases h with
        | head => exact List.Mem.head _
        | tail _ h2 => exact List.Mem.tail _ (ih h2)

/-- The dash-collapsed list has no two adjacent dashes. -/
theorem squeezeDashes_noDoubleDash (l : List Char) :
    noDoubleDash (squeezeDashes l) := by
  induction l with
  | nil => exact List.chain'_nil
  | cons a tl ih =>
    cases tl with
    | nil => exact List.chain'_singleton a
    | cons b rest =>
      rw [squeezeDashes]
      by_cases hab : (a == '-' && b == '-') = true
      · rw [if_pos hab]
        exact ih
      · rw [if_neg hab]
        refine List.chain'_cons'.2 ⟨?_, ih⟩
        intro y hy
        rw [squeezeDashes_head?] at hy
        simp only [List.head?_cons, Option.mem_def, Option.some.injEq] at hy
        intro hcontra
        apply hab
        simp only [Bool.and_eq_true, beq_iff_eq]
        exact ⟨hcontra.1, hy ▸ hcontra.2⟩

/-- Collapsing is the identity on lists without adjacent dashes. -/
theorem squeezeDashes_eq_self (l : List Char) (h : noDoubleDash l) :
    squeezeDashes l = l := by
  induction l with
  | nil => rfl
  | cons a tl ih =>
    cases tl with
    | nil => rfl
    | cons b rest =>
      rw [squeezeDashes]
      have hrel := (List.chain'_cons.1 h).1
      have htl := (List.chain'_cons.1 h).2
      rw [if_neg (by simpa using hrel), ih htl]

/-- Mapping a substitution on lists without underscores is the
identity. -/
theorem map_sepToDash_eq_self (l : List Char) (h : ∀ c ∈ l, c ≠ '_') :
    l.map sepToDash = l := by
  induction l with
  | nil => rfl
  | cons a tl ih =>
    rw [List.map_cons, sepToDash_eq_self a (h a (List.Mem.head _)),
      ih (fun c hc => h c (List.Mem.tail _ hc))]

/-- Every character of a canonicalized name differs from the
underscore. -/
theorem canonicalizeName_no_underscore (s : List Char) (c : Char)
    (h : c ∈ canonicalizeName s) : c ≠ '_' := by
  rw [canonicalizeName] at h
  obtain ⟨d, hd, rfl⟩ := List.mem_map.1 h
  intro hcontra
  have hd2 := mem_squeezeDashes _ _ hd
  obtain ⟨e, _, rfl⟩ := List.mem_map.1 hd2
  exact sepToDash_ne_underscore e ((toLower_eq_underscore_iff _).1 hcontra)

/-- A canonicalized name has no two adjacent dashes. -/
theorem canonicalizeName_noDoubleDash (s : List Char) :
    noDoubleDash (canonicalizeName s) := by
  rw [canonicalizeName]
  rw [noDoubleDash, List.chain'_map]
  refine (squeezeDashes_noDoubleDash (s.map sepToDash)).imp ?_
  intro a b hab hcontra
  exact hab ⟨(toLower_eq_dash_iff a).1 hcontra.1, (toLower_eq_dash_iff b).1 hcontra.2⟩

/-- C10: canonicalize_name is idempotent, and its output contains no
uppercase letter and no underscore. -/
theorem canonicalize_name_idempotent_and_lowercase (s : List Char) :
    canonicalizeName (canonicalizeName s) = canonicalizeName s
    ∧ (canonicalizeName s).all (fun c => !c.isUpper && c != '_') = true := by
  constructor
  · conv_lhs => rw [canonicalizeName]
    rw [map_sepToDash_eq_self _ (canonicalizeName_no_underscore s),
      squeezeDashes_eq_self _ (canonicalizeName_noDoubleDash s),
      canonicalizeName, List.map_map]
    exact List.map_congr_left (fun a _ => toLower_toLower a)
  · rw [List.all_eq_true]
    intro c hc
    have hus := canonicalizeName_no_underscore s c hc
    rw [canonicalizeName] at hc
    obtain ⟨d, _, rfl⟩ := List.mem_map.1 hc
    rw [Bool.and_eq_true, toLower_isUpper]
    exact ⟨rfl, by simpa using hus⟩

end Poetry
